import Mathlib

/-!
Shallow embedding of `src/ExpenseScreen.js` (student expense tracker).

Modelling conventions:
* Times are modelled at day granularity as `Int` days since 1970-01-01 (UTC).
  Every timestamp the source manipulates is normalised to start-of-day before
  it is compared, so day granularity loses nothing.
* JS numbers that hold expense amounts are modelled as `ℚ`; a value that is
  not a number (`NaN`) is modelled as `none : Option ℚ`.
* `parseFloat` and `String(number)` are JS builtins, not code of this
  repository; they enter the model as components of an explicit environment.
* The SQLite store is modelled as the list of persisted rows in insertion
  order together with the `AUTOINCREMENT` counter.
-/

/-- Civil-from-days conversion (proleptic Gregorian calendar, UTC): maps a day
number (days since 1970-01-01) to `(year, month, day)` with `month ∈ [1,12]`.
This models the calendar part of the JS `Date` environment. `Int` division is
Euclidean, which agrees with floor division for the positive divisors used
here. -/
def civilFromDays (z0 : Int) : Int × Int × Int :=
  let z := z0 + 719468
  let era := z / 146097
  let doe := z - era * 146097
  let yoe := (doe - doe / 1460 + doe / 36524 - doe / 146096) / 365
  let y := yoe + era * 400
  let doy := doe - (365 * yoe + yoe / 4 - yoe / 100)
  let mp := (5 * doy + 2) / 153
  let d := doy - (153 * mp + 2) / 5 + 1
  let m := mp + (if mp < 10 then 3 else -9)
  (y + (if m ≤ 2 then 1 else 0), m, d)

/-- Days-from-civil conversion, inverse direction of `civilFromDays`. -/
def daysFromCivil (y0 m d : Int) : Int :=
  let y := y0 - (if m ≤ 2 then 1 else 0)
  let era := y / 400
  let yoe := y - era * 400
  let doy := (153 * (m + (if 2 < m then -3 else 9)) + 2) / 5 + d - 1
  let doe := yoe * 365 + yoe / 4 - yoe / 100 + doy
  era * 146097 + doe - 719468

/-- Model of JS `Date.prototype.getDay`: day of week, `0` = Sunday. Day `0`
(1970-01-01) was a Thursday. -/
def getDay (d : Int) : Int := (d + 4) % 7

/-- Model of JS `Date.prototype.getFullYear` (UTC-normalised model). -/
def getFullYear (d : Int) : Int := (civilFromDays d).1

/-- Model of JS `Date.prototype.getMonth`: zero-based month. -/
def getMonth (d : Int) : Int := (civilFromDays d).2.1 - 1

/-- Gregorian leap-year test. -/
def isLeap (y : Int) : Bool := y % 4 == 0 && (y % 100 != 0 || y % 400 == 0)

/-- Number of days in a month of a given year. -/
def daysInMonth (y m : Int) : Int :=
  if m = 2 then (if isLeap y then 29 else 28)
  else if m = 4 ∨ m = 6 ∨ m = 9 ∨ m = 11 then 30 else 31

/-- Two-digit zero-padded decimal rendering of `n % 100`. -/
def pad2 (n : Nat) : String :=
  String.mk [Nat.digitChar (n / 10 % 10), Nat.digitChar (n % 10)]

/-- Four-digit zero-padded decimal rendering of `n % 10000`. -/
def pad4 (n : Nat) : String :=
  String.mk [Nat.digitChar (n / 1000 % 10), Nat.digitChar (n / 100 % 10),
             Nat.digitChar (n / 10 % 10), Nat.digitChar (n % 10)]

/-- Model of `getTodayDateString` from the source:
`new Date().toISOString().slice(0, 10)`, i.e. the current date rendered as
`YYYY-MM-DD`. `now` is the current day number supplied by the clock. -/
def getTodayDateString (now : Int) : String :=
  let c := civilFromDays now
  pad4 c.1.toNat ++ "-" ++ pad2 c.2.1.toNat ++ "-" ++ pad2 c.2.2.toNat

/-- Model of `new Date(s)` for the date strings this app stores: a strict
`YYYY-MM-DD` string parses to its day number (UTC midnight); anything else is
an invalid date (`none`), which the source's filters always exclude. -/
def parseDate (s : String) : Option Int :=
  match s.data with
  | [y1, y2, y3, y4, h1, m1, m2, h2, d1, d2] =>
    if h1 = '-' ∧ h2 = '-' ∧ y1.isDigit ∧ y2.isDigit ∧ y3.isDigit ∧ y4.isDigit
        ∧ m1.isDigit ∧ m2.isDigit ∧ d1.isDigit ∧ d2.isDigit then
      let y : Int := (y1.toNat - 48) * 1000 + (y2.toNat - 48) * 100
                     + (y3.toNat - 48) * 10 + (y4.toNat - 48)
      let m : Int := (m1.toNat - 48) * 10 + (m2.toNat - 48)
      let d : Int := (d1.toNat - 48) * 10 + (d2.toNat - 48)
      if 1 ≤ m ∧ m ≤ 12 ∧ 1 ≤ d ∧ d ≤ daysInMonth y m then
        some (daysFromCivil y m d)
      else none
    else none
  | _ => none

/-- Model of the JS builtin `String.prototype.trim`: drop leading and
trailing whitespace. -/
def trimJS (s : String) : String :=
  String.mk (((s.data.dropWhile Char.isWhitespace).reverse.dropWhile
    Char.isWhitespace).reverse)

/-- A persisted expense row (table `expenses`). `none` in `amount` models a
non-numeric value, `none` in `category`/`note`/`date` models SQL `NULL`. -/
structure Expense where
  id : Nat
  amount : Option ℚ
  category : Option String
  note : Option String
  date : Option String
deriving DecidableEq

/-- The time-window filter selector. -/
inductive FilterSel
  | All
  | Week
  | Month
deriving DecidableEq

/-- Environment of JS builtins the component uses: `parseFloat` (with `none`
modelling `NaN`), `String(number)` rendering, and the current day number from
the clock. -/
structure Env where
  parseFloat : String → Option ℚ
  numToString : ℚ → String
  now : Int

/-- Full component state: the persisted store (`db`, `nextId`) together with
the React state hooks (`expenses`, form fields, `editingId`, `filter`). -/
structure AppState where
  db : List Expense
  nextId : Nat
  expenses : List Expense
  amount : String
  category : String
  note : String
  editingId : Option Nat
  filter : FilterSel
deriving DecidableEq

/-- Strict order on stored date values as SQLite compares them: `NULL` is
smaller than any text, text compares lexicographically. -/
def dateLtB : Option String → Option String → Bool
  | none, some _ => true
  | some a, some b => decide (a < b)
  | _, _ => false

/-- Row order produced by `ORDER BY date DESC, id DESC`: `a` precedes `b`
when `b`'s date is smaller, or dates are equal and `b`'s id is not larger. -/
def expLeB (a b : Expense) : Bool :=
  dateLtB b.date a.date || (b.date == a.date && decide (b.id ≤ a.id))

/-- Propositional form of `expLeB`. -/
def expLeP (a b : Expense) : Prop := expLeB a b = true

instance : DecidableRel expLeP := fun a b => instDecidableEqBool (expLeB a b) true

/-- Model of `loadExpenses`: `SELECT * FROM expenses ORDER BY date DESC, id
DESC` returns the store's rows sorted by that key. -/
def loadExpenses (db : List Expense) : List Expense := List.insertionSort expLeP db

/-- Model of `addExpense`: validate the amount parses positive and the trimmed
category is non-empty; on success insert a row dated today, clear the form and
reload. On validation failure the handler returns with no effect. -/
def addExpense (env : Env) (st : AppState) : AppState :=
  match env.parseFloat st.amount with
  | none => st
  | some amountNumber =>
    if amountNumber ≤ 0 then st
    else
      let trimmedCategory := trimJS st.category
      let trimmedNote := trimJS st.note
      if trimmedCategory = "" then st
      else
        let today := getTodayDateString env.now
        let row : Expense :=
          { id := st.nextId, amount := some amountNumber,
            category := some trimmedCategory,
            note := if trimmedNote = "" then none else some trimmedNote,
            date := some today }
        let db' := st.db ++ [row]
        { st with db := db', nextId := st.nextId + 1,
                  expenses := loadExpenses db',
                  amount := "", category := "", note := "" }

/-- The row rewrite performed by `UPDATE expenses SET amount = ?, category =
?, note = ? WHERE id = ?` on a single row. -/
def updRow (q : ℚ) (cat note : String) (eid : Nat) (e : Expense) : Expense :=
  if e.id = eid then
    { e with amount := some q, category := some cat,
             note := if note = "" then none else some note }
  else e

/-- Model of `saveEdit`: same validation as `addExpense`, additionally
requires a remembered editing id (JS truthiness: `0` and `null` both fail the
`!editingId` check); on success update the row, clear editing state and the
form, and reload. -/
def saveEdit (env : Env) (st : AppState) : AppState :=
  match env.parseFloat st.amount with
  | none => st
  | some amountNumber =>
    if amountNumber ≤ 0 then st
    else
      let trimmedCategory := trimJS st.category
      let trimmedNote := trimJS st.note
      if trimmedCategory = "" then st
      else
        match st.editingId with
        | none => st
        | some eid =>
          if eid = 0 then st
          else
            let db' := st.db.map (updRow amountNumber trimmedCategory trimmedNote eid)
            { st with db := db', expenses := loadExpenses db',
                      amount := "", category := "", note := "",
                      editingId := none }

/-- Model of `cancelEdit`: drop the editing id and clear the form. -/
def cancelEdit (st : AppState) : AppState :=
  { st with editingId := none, amount := "", category := "", note := "" }

/-- Model of `deleteExpense`: `DELETE FROM expenses WHERE id = ?`, then
reload. -/
def deleteExpense (st : AppState) (i : Nat) : AppState :=
  let db' := st.db.filter (fun e => decide (e.id ≠ i))
  { st with db := db', expenses := loadExpenses db' }

/-- Model of `startEditing`: remember the row's id and preload the form
(JS `String(item.amount)` renders `null` as the text "null"). -/
def startEditing (env : Env) (st : AppState) (item : Expense) : AppState :=
  { st with editingId := some item.id,
            amount := match item.amount with
                      | none => "null"
                      | some q => env.numToString q,
            category := item.category.getD "",
            note := item.note.getD "" }

/-- Model of the `setFilter` state update. -/
def setFilterCmd (st : AppState) (f : FilterSel) : AppState := { st with filter := f }

/-- Model of `filteredExpenses`: the time-window filter over the in-memory
row set, computed from the clock's current day `now`. -/
def filteredExpenses (now : Int) (filter : FilterSel) (expenses : List Expense) :
    List Expense :=
  match filter with
  | .All => expenses
  | .Month =>
    let month := getMonth now
    let year := getFullYear now
    expenses.filter fun e =>
      match e.date with
      | none => false
      | some s =>
        match parseDate s with
        | none => false
        | some d => decide (getFullYear d = year) && decide (getMonth d = month)
  | .Week =>
    let day := getDay now
    let diffToMonday := (day + 6) % 7
    let startOfWeek := now - diffToMonday
    let endOfWeek := startOfWeek + 6
    expenses.filter fun e =>
      match e.date with
      | none => false
      | some s =>
        match parseDate s with
        | none => false
        | some d => decide (startOfWeek ≤ d) && decide (d ≤ endOfWeek)

/-- The amount a row contributes to totals: `Number(e.amount) || 0`, so a
non-numeric amount contributes `0`. -/
def amountNum (e : Expense) : ℚ :=
  match e.amount with
  | none => 0
  | some q => q

/-- Model of `overallTotal`: left fold of `sum + (Number(e.amount) || 0)`
over the filtered rows, starting from `0`. -/
def overallTotal (l : List Expense) : ℚ :=
  l.foldl (fun sum e => sum + amountNum e) 0

/-- The bucket label of a row: `e.category || 'Uncategorized'` (both a
missing category and the empty string are falsy in JS). -/
def catOf (e : Expense) : String :=
  match e.category with
  | none => "Uncategorized"
  | some s => if s = "" then "Uncategorized" else s

/-- One step of the `categoryTotals` accumulation. The JS code tests the
falsiness of `totals[cat]`; since every stored value is a rational and a
falsy (zero) value is reset to zero before the addition, the observable
behaviour coincides with this key-presence test: an existing key keeps its
position and is incremented, a new key is appended with the contribution. -/
def addToTotals (ts : List (String × ℚ)) (cat : String) (amt : ℚ) :
    List (String × ℚ) :=
  if ts.any (fun p => p.1 == cat) then
    ts.map (fun p => if p.1 = cat then (p.1, p.2 + amt) else p)
  else ts ++ [(cat, amt)]

/-- Model of `categoryTotals`: fold the rows into an insertion-ordered
association list from bucket label to summed amount. -/
def categoryTotals (l : List Expense) : List (String × ℚ) :=
  l.foldl (fun ts e => addToTotals ts (catOf e) (amountNum e)) []

/-- Commands the presentation layer can issue, paired per step with the
environment (clock reading, builtins) in force when the command runs. -/
inductive Cmd
  | add
  | save
  | cancel
  | del (i : Nat)
  | edit (item : Expense)
  | setF (f : FilterSel)
  | setAmount (s : String)
  | setCategory (s : String)
  | setNote (s : String)

/-- One command step. -/
def runCmd (env : Env) (st : AppState) : Cmd → AppState
  | .add => addExpense env st
  | .save => saveEdit env st
  | .cancel => cancelEdit st
  | .del i => deleteExpense st i
  | .edit item => startEditing env st item
  | .setF f => setFilterCmd st f
  | .setAmount s => { st with amount := s }
  | .setCategory s => { st with category := s }
  | .setNote s => { st with note := s }

/-- Run a sequence of commands, each under its own environment. -/
def run (ecs : List (Env × Cmd)) (st : AppState) : AppState :=
  ecs.foldl (fun st ec => runCmd ec.1 st ec.2) st

/-! Specification-side helpers used to state the claims. -/

/-- Sum of the contributed amounts of a row list. -/
def sumAmounts (l : List Expense) : ℚ := (l.map amountNum).sum

/-- Sum of the contributed amounts of the rows of one bucket. -/
def sumForCat (c : String) (l : List Expense) : ℚ :=
  ((l.filter (fun e => catOf e == c)).map amountNum).sum

/-- Sum of the values of a totals mapping. -/
def valsSum (ts : List (String × ℚ)) : ℚ := (ts.map Prod.snd).sum

/-- The start of the Monday-based week that the source computes: the current
day minus `(getDay + 6) % 7`. -/
def weekStart (now : Int) : Int := now - (getDay now + 6) % 7

/-- Shape check for `YYYY-MM-DD`: ten characters, digits except for dashes at
positions 4 and 7. -/
def isISODateShape (s : String) : Bool :=
  match s.data with
  | [a, b, c, d, h1, e, f, h2, g, i] =>
    a.isDigit && b.isDigit && c.isDigit && d.isDigit && h1 == '-'
      && e.isDigit && f.isDigit && h2 == '-' && g.isDigit && i.isDigit
  | _ => false

/-- First-match lookup in a totals association list. -/
def lookupQ (c : String) : List (String × ℚ) → Option ℚ
  | [] => none
  | p :: r => if p.1 = c then some p.2 else lookupQ c r

/-! Basic lemmas about the aggregation fold. -/

theorem foldl_add_amount (l : List Expense) : ∀ a : ℚ,
    l.foldl (fun sum e => sum + amountNum e) a = a + sumAmounts l := by
  induction l with
  | nil => intro a; simp [sumAmounts]
  | cons e l ih =>
    intro a
    simp only [List.foldl_cons, ih, sumAmounts, List.map_cons, List.sum_cons]
    ring

theorem overallTotal_eq_sumAmounts (l : List Expense) :
    overallTotal l = sumAmounts l := by
  simpa using foldl_add_amount l 0

/-- C6: for every filtered record set, the overall total equals the sum of the
amount fields over the set, a non-numeric amount contributing zero instead of
failing; for the empty set the overall total is 0. -/
theorem overallTotal_correct :
    (∀ l, overallTotal l = sumAmounts l) ∧
    (∀ e, e.amount = none → amountNum e = 0) ∧
    overallTotal [] = 0 := by
  refine ⟨overallTotal_eq_sumAmounts, fun e h => ?_, rfl⟩
  simp [amountNum, h]

/-- Witness for C6 at a concrete non-numeric row. -/
theorem overallTotal_correct_witness :
    amountNum ⟨3, none, some "Misc", none, none⟩ = 0 :=
  overallTotal_correct.2.1 ⟨3, none, some "Misc", none, none⟩ rfl

/-- C7: with the `All` selector the filtered set is the full record set with
order preserved, and its overall total is the unfiltered sum of all amounts. -/
theorem all_filter_correct (now : Int) (l : List Expense) :
    filteredExpenses now .All l = l ∧
    overallTotal (filteredExpenses now .All l) = sumAmounts l :=
  ⟨rfl, overallTotal_eq_sumAmounts l⟩

/-- C4: with the `Month` selector the filtered set contains exactly the rows
of the record set whose date parses and falls in the calendar year and month
of the evaluation-time clock; rows with a missing or unparseable date are
excluded. -/
theorem month_filter_correct (now : Int) (l : List Expense) (e : Expense) :
    e ∈ filteredExpenses now .Month l ↔
      e ∈ l ∧ ∃ s d, e.date = some s ∧ parseDate s = some d ∧
        (civilFromDays d).1 = (civilFromDays now).1 ∧
        (civilFromDays d).2.1 = (civilFromDays now).2.1 := by
  simp only [filteredExpenses, List.mem_filter]
  refine and_congr_right fun _ => ?_
  cases hd : e.date with
  | none => simp
  | some s =>
    cases hp : parseDate s with
    | none => simp [hp]
    | some d =>
      simp only [hp, Bool.and_eq_true, decide_eq_true_eq, getFullYear, getMonth]
      constructor
      · rintro ⟨h1, h2⟩
        exact ⟨s, d, rfl, hp, h1, by omega⟩
      · rintro ⟨s', d', hs, hpd, h1, h2⟩
        cases hs
        rw [hp] at hpd
        cases hpd
        exact ⟨h1, by omega⟩

/-- C3: with the `Week` selector, the week start the source computes is the
most recent Monday (day-of-week `1`, at most six days back), the filtered set
contains exactly the rows whose parsed date lies in the seven-day window from
that Monday through the following Sunday (rows with a missing date excluded),
and in particular a row dated today is included while a row dated eight days
before today is excluded. -/
theorem week_filter_correct (now : Int) (l : List Expense) :
    (getDay (weekStart now) = 1 ∧ weekStart now ≤ now ∧ now < weekStart now + 7) ∧
    (∀ e, e ∈ filteredExpenses now .Week l ↔
        e ∈ l ∧ ∃ s d, e.date = some s ∧ parseDate s = some d ∧
          weekStart now ≤ d ∧ d ≤ weekStart now + 6) ∧
    (∀ e, e ∈ l → ∀ s, e.date = some s →
        (parseDate s = some now → e ∈ filteredExpenses now .Week l) ∧
        (parseDate s = some (now - 8) → e ∉ filteredExpenses now .Week l)) := by
  have hmem : ∀ e, e ∈ filteredExpenses now .Week l ↔
      e ∈ l ∧ ∃ s d, e.date = some s ∧ parseDate s = some d ∧
        weekStart now ≤ d ∧ d ≤ weekStart now + 6 := by
    intro e
    simp only [filteredExpenses, List.mem_filter, weekStart]
    refine and_congr_right fun _ => ?_
    cases hd : e.date with
    | none => simp
    | some s =>
      cases hp : parseDate s with
      | none => simp [hp]
      | some d =>
        simp only [hp, Bool.and_eq_true, decide_eq_true_eq]
        constructor
        · rintro ⟨h1, h2⟩
          exact ⟨s, d, rfl, hp, h1, h2⟩
        · rintro ⟨s', d', hs, hpd, h1, h2⟩
          cases hs
          rw [hp] at hpd
          cases hpd
          exact ⟨h1, h2⟩
  have hws : getDay (weekStart now) = 1 ∧ weekStart now ≤ now ∧
      now < weekStart now + 7 := by
    unfold weekStart getDay
    omega
  refine ⟨hws, hmem, fun e he s hds => ⟨fun hp => ?_, fun hp hmemf => ?_⟩⟩
  · exact (hmem e).mpr ⟨he, s, now, hds, hp, by unfold weekStart getDay; omega,
      by unfold weekStart getDay; omega⟩
  · rcases ((hmem e).mp hmemf).2 with ⟨s', d', hs, hpd, h1, h2⟩
    rw [hds] at hs
    cases hs
    rw [hp] at hpd
    cases hpd
    revert h1 h2
    unfold weekStart getDay
    omega

theorem digitChar_mod_isDigit (n : Nat) : (Nat.digitChar (n % 10)).isDigit = true :=
  (by decide : ∀ k, k < 10 → (Nat.digitChar k).isDigit = true) _ (Nat.mod_lt _ (by decide))

theorem isISODateShape_getToday (now : Int) :
    isISODateShape (getTodayDateString now) = true := by
  unfold getTodayDateString
  have hdata : ∀ a b c : Nat,
      (pad4 a ++ "-" ++ pad2 b ++ "-" ++ pad2 c).data =
        [Nat.digitChar (a / 1000 % 10), Nat.digitChar (a / 100 % 10),
         Nat.digitChar (a / 10 % 10), Nat.digitChar (a % 10), '-',
         Nat.digitChar (b / 10 % 10), Nat.digitChar (b % 10), '-',
         Nat.digitChar (c / 10 % 10), Nat.digitChar (c % 10)] := by
    intro a b c
    simp [pad4, pad2, String.data_append]
  simp only [isISODateShape, hdata]
  simp [digitChar_mod_isDigit]

/-- C2: after a successful `addExpense` the store gains exactly one row at the
end, and that row's date is the current date at call time rendered in the
canonical `YYYY-MM-DD` shape. -/
theorem addExpense_success (env : Env) (st : AppState) (q : ℚ)
    (hp : env.parseFloat st.amount = some q) (hq : 0 < q)
    (hc : trimJS st.category ≠ "") :
    ∃ r, (addExpense env st).db = st.db ++ [r] ∧
      r.date = some (getTodayDateString env.now) ∧
      isISODateShape (getTodayDateString env.now) = true := by
  refine ⟨⟨st.nextId, some q, some (trimJS st.category),
    if trimJS st.note = "" then none else some (trimJS st.note),
    some (getTodayDateString env.now)⟩, ?_, rfl, isISODateShape_getToday env.now⟩
  simp [addExpense, hp, not_le.mpr hq, hc]

/-- C1: when the amount does not parse to a positive number, or the category
trims to the empty string, `addExpense` and `saveEdit` are silent no-ops: the
whole state, and in particular the stored record set, is unchanged. -/
theorem invalid_input_noop (env : Env) (st : AppState)
    (h : (∀ q, env.parseFloat st.amount = some q → q ≤ 0) ∨ trimJS st.category = "") :
    addExpense env st = st ∧ saveEdit env st = st := by
  cases hp : env.parseFloat st.amount with
  | none => simp [addExpense, saveEdit, hp]
  | some q =>
    rcases h with h1 | h2
    · simp [addExpense, saveEdit, hp, h1 q hp]
    · by_cases hq : q ≤ 0
      · simp [addExpense, saveEdit, hp, hq]
      · simp [addExpense, saveEdit, hp, hq, h2]

/-! Concrete sample values used by the witnesses. -/

def envPos : Env := { parseFloat := fun _ => some 5, numToString := fun _ => "", now := 4 }

def envNaN : Env := { parseFloat := fun _ => none, numToString := fun _ => "", now := 0 }

def stStart : AppState :=
  { db := [], nextId := 1, expenses := [], amount := "5", category := "Food",
    note := "", editingId := none, filter := .All }

def rowToday : Expense := ⟨1, some 5, some "Food", none, some "1970-01-05"⟩

def rowOld : Expense := ⟨2, some 3, some "Bus", none, some "1969-12-28"⟩

def rowJan : Expense := ⟨3, some 7, some "Books", none, some "1970-01-15"⟩

/-- Witness for C1 at a concrete environment whose parse yields `NaN`. -/
theorem invalid_input_noop_witness :
    addExpense envNaN stStart = stStart ∧ saveEdit envNaN stStart = stStart :=
  invalid_input_noop envNaN stStart (Or.inl fun _ h => nomatch h)

/-- Witness for C2 at a concrete valid form state. -/
theorem addExpense_success_witness :
    ∃ r, (addExpense envPos stStart).db = stStart.db ++ [r] ∧
      r.date = some (getTodayDateString envPos.now) ∧
      isISODateShape (getTodayDateString envPos.now) = true :=
  addExpense_success envPos stStart 5 rfl (by norm_num) (by decide)

/-- Witness for C3: on Monday 1970-01-05 (day 4) a row dated that day is kept
by the week filter and a row dated eight days earlier is dropped. -/
theorem week_filter_correct_witness :
    rowToday ∈ filteredExpenses 4 .Week [rowToday, rowOld] ∧
    rowOld ∉ filteredExpenses 4 .Week [rowToday, rowOld] := by
  have h := week_filter_correct 4 [rowToday, rowOld]
  exact ⟨(h.2.2 rowToday (by decide) "1970-01-05" rfl).1 (by decide),
    (h.2.2 rowOld (by decide) "1969-12-28" rfl).2 (by decide)⟩

/-- Witness for C4: a January 1970 row is kept by the month filter on day 4. -/
theorem month_filter_correct_witness :
    rowJan ∈ filteredExpenses 4 .Month [rowJan, rowOld] :=
  (month_filter_correct 4 [rowJan, rowOld] rowJan).mpr
    ⟨by decide, "1970-01-15", 14, rfl, by decide, by decide, by decide⟩

theorem lookupQ_map_update_ne (ts : List (String × ℚ)) (c c' : String) (a : ℚ)
    (hne : c ≠ c') :
    lookupQ c (ts.map (fun p => if p.1 = c' then (p.1, p.2 + a) else p)) =
      lookupQ c ts := by
  induction ts with
  | nil => rfl
  | cons p r ih =>
    by_cases hp : p.1 = c'
    · simp [lookupQ, hp, Ne.symm hne, ih]
    · by_cases hc : p.1 = c <;> simp [lookupQ, hp, hc, hne, ih]

theorem lookupQ_map_update_eq (ts : List (String × ℚ)) (c : String) (a : ℚ)
    (hany : ts.any (fun p => p.1 == c) = true) :
    lookupQ c (ts.map (fun p => if p.1 = c then (p.1, p.2 + a) else p)) =
      some ((lookupQ c ts).getD 0 + a) := by
  induction ts with
  | nil => simp at hany
  | cons p r ih =>
    by_cases hp : p.1 = c
    · simp [lookupQ, hp]
    · have hr : r.any (fun p => p.1 == c) = true := by
        simp only [List.any_cons, Bool.or_eq_true, beq_iff_eq] at hany
        rcases hany with h | h
        · exact absurd h hp
        · exact h
      simp [lookupQ, hp, ih hr]

theorem lookupQ_append (ts l2 : List (String × ℚ)) (c : String) :
    lookupQ c (ts ++ l2) = (lookupQ c ts).elim (lookupQ c l2) some := by
  induction ts with
  | nil => simp [lookupQ]
  | cons p r ih =>
    by_cases hp : p.1 = c <;> simp [lookupQ, hp, ih]

theorem lookupQ_none_of_any_false (ts : List (String × ℚ)) (c : String)
    (h : ts.any (fun p => p.1 == c) = false) : lookupQ c ts = none := by
  induction ts with
  | nil => rfl
  | cons p r ih =>
    simp only [List.any_cons, Bool.or_eq_false_iff] at h
    have hp : ¬ p.1 = c := by simpa using h.1
    simp [lookupQ, hp, ih h.2]

theorem lookupQ_addToTotals (ts : List (String × ℚ)) (c c' : String) (a : ℚ) :
    lookupQ c (addToTotals ts c' a) =
      if c = c' then some ((lookupQ c ts).getD 0 + a) else lookupQ c ts := by
  unfold addToTotals
  by_cases hany : ts.any (fun p => p.1 == c') = true
  · rw [if_pos hany]
    by_cases hc : c = c'
    · subst hc
      rw [if_pos rfl]
      exact lookupQ_map_update_eq ts c a hany
    · rw [if_neg hc]
      exact lookupQ_map_update_ne ts c c' a hc
  · rw [if_neg hany]
    have hnone := lookupQ_none_of_any_false ts c' (Bool.eq_false_iff.mpr hany)
    rw [lookupQ_append]
    by_cases hc : c = c'
    · subst hc
      rw [hnone]
      simp [lookupQ]
    · cases hl : lookupQ c ts with
      | none => simp [lookupQ, Ne.symm hc, if_neg hc, hl]
      | some v => simp [if_neg hc, hl]

theorem sumForCat_cons (c : String) (e : Expense) (l : List Expense) :
    sumForCat c (e :: l) =
      if catOf e = c then amountNum e + sumForCat c l else sumForCat c l := by
  by_cases h : catOf e = c <;> simp [sumForCat, List.filter_cons, h]

theorem lookupQ_fold (l : List Expense) : ∀ (ts : List (String × ℚ)) (c : String),
    lookupQ c (l.foldl (fun ts e => addToTotals ts (catOf e) (amountNum e)) ts) =
      if (lookupQ c ts).isSome = true ∨ l.any (fun e => catOf e == c) = true then
        some ((lookupQ c ts).getD 0 + sumForCat c l)
      else none := by
  induction l with
  | nil =>
    intro ts c
    cases hl : lookupQ c ts with
    | none => simp [List.foldl, hl]
    | some v => simp [List.foldl, hl, sumForCat]
  | cons e l ih =>
    intro ts c
    simp only [List.foldl_cons]
    rw [ih, lookupQ_addToTotals, sumForCat_cons, List.any_cons]
    by_cases hc : c = catOf e
    · have hce : catOf e = c := hc.symm
      simp [if_pos hc, hce, add_assoc]
    · have hce : ¬ catOf e = c := fun h => hc h.symm
      simp [if_neg hc, hce]

theorem keys_addToTotals (ts : List (String × ℚ)) (c : String) (a : ℚ) :
    (addToTotals ts c a).map Prod.fst =
      if ts.any (fun p => p.1 == c) then ts.map Prod.fst
      else ts.map Prod.fst ++ [c] := by
  unfold addToTotals
  split
  · rw [List.map_map]
    refine List.map_congr_left fun p _ => ?_
    by_cases hp : p.1 = c <;> simp [hp]
  · simp

theorem any_key_iff (ts : List (String × ℚ)) (c : String) :
    ts.any (fun p => p.1 == c) = true ↔ c ∈ ts.map Prod.fst := by
  simp [List.any_eq_true]

theorem keys_nodup_addToTotals (ts : List (String × ℚ)) (c : String) (a : ℚ)
    (h : (ts.map Prod.fst).Nodup) : ((addToTotals ts c a).map Prod.fst).Nodup := by
  rw [keys_addToTotals]
  split
  · exact h
  · rename_i hany
    rw [List.nodup_append]
    refine ⟨h, List.nodup_singleton c, fun x hx hx2 => ?_⟩
    simp only [List.mem_singleton] at hx2
    subst hx2
    rw [← any_key_iff] at hx
    simp [hx] at hany

theorem keys_nodup_fold (l : List Expense) : ∀ ts : List (String × ℚ),
    (ts.map Prod.fst).Nodup →
    ((l.foldl (fun ts e => addToTotals ts (catOf e) (amountNum e)) ts).map
      Prod.fst).Nodup := by
  induction l with
  | nil => exact fun ts h => h
  | cons e l ih => exact fun ts h => ih _ (keys_nodup_addToTotals _ _ _ h)

theorem lookupQ_isSome_iff (ts : List (String × ℚ)) (c : String) :
    (lookupQ c ts).isSome = true ↔ c ∈ ts.map Prod.fst := by
  induction ts with
  | nil => simp [lookupQ]
  | cons p r ih =>
    by_cases hp : p.1 = c
    · simp [lookupQ, hp]
    · have hcp : ¬ c = p.1 := fun h => hp h.symm
      simp [lookupQ, hp, hcp, ih]

theorem lookupQ_of_mem (ts : List (String × ℚ)) (p : String × ℚ)
    (hnd : (ts.map Prod.fst).Nodup) (hm : p ∈ ts) : lookupQ p.1 ts = some p.2 := by
  induction ts with
  | nil => cases hm
  | cons q r ih =>
    rw [List.map_cons, List.nodup_cons] at hnd
    rcases List.mem_cons.mp hm with rfl | hm2
    · simp [lookupQ]
    · have hq : ¬ q.1 = p.1 := fun he => hnd.1 (he ▸ List.mem_map_of_mem Prod.fst hm2)
      simp [lookupQ, hq, ih hnd.2 hm2]

/-- C5: the category totals mapping has pairwise distinct keys, every row's
bucket label (missing or empty categories going to "Uncategorized") appears
among the keys, and every entry's value is the sum of the contributed amounts
of that bucket's rows, each key arising from some row of the set. -/
theorem categoryTotals_correct (l : List Expense) :
    (∀ e, (e.category = none ∨ e.category = some "") → catOf e = "Uncategorized") ∧
    ((categoryTotals l).map Prod.fst).Nodup ∧
    (∀ e, e ∈ l → catOf e ∈ (categoryTotals l).map Prod.fst) ∧
    (∀ p, p ∈ categoryTotals l → p.2 = sumForCat p.1 l ∧ ∃ e ∈ l, catOf e = p.1) := by
  have hnd : ((categoryTotals l).map Prod.fst).Nodup :=
    keys_nodup_fold l [] (by simp)
  refine ⟨?_, hnd, ?_, ?_⟩
  · rintro e (h | h) <;> simp [catOf, h]
  · intro e he
    rw [← lookupQ_isSome_iff, categoryTotals, lookupQ_fold]
    have hany : l.any (fun x => catOf x == catOf e) = true :=
      List.any_eq_true.mpr ⟨e, he, by simp⟩
    simp [hany]
  · intro p hp
    have hl : lookupQ p.1 (categoryTotals l) = some p.2 :=
      lookupQ_of_mem _ p hnd hp
    rw [categoryTotals, lookupQ_fold] at hl
    by_cases hany : l.any (fun e => catOf e == p.1) = true
    · rw [if_pos (Or.inr hany)] at hl
      simp only [lookupQ, Option.getD_none, Option.some.injEq] at hl
      rcases List.any_eq_true.mp hany with ⟨e, he, hce⟩
      exact ⟨by rw [← hl]; simp [lookupQ], ⟨e, he, by simpa using hce⟩⟩
    · rw [if_neg] at hl
      · cases hl
      · rintro (h1 | h2)
        · simp [lookupQ] at h1
        · exact hany h2

theorem map_update_id (r : List (String × ℚ)) (c : String) (a : ℚ)
    (h : r.any (fun p => p.1 == c) = false) :
    r.map (fun p => if p.1 = c then (p.1, p.2 + a) else p) = r := by
  induction r with
  | nil => rfl
  | cons p r ih =>
    simp only [List.any_cons, Bool.or_eq_false_iff] at h
    have hp : ¬ p.1 = c := by simpa using h.1
    simp [hp, ih h.2]

theorem valsSum_map_update (r : List (String × ℚ)) (c : String) (a : ℚ)
    (hnd : (r.map Prod.fst).Nodup) (hany : r.any (fun p => p.1 == c) = true) :
    valsSum (r.map (fun p => if p.1 = c then (p.1, p.2 + a) else p)) =
      valsSum r + a := by
  induction r with
  | nil => simp at hany
  | cons p r ih =>
    rw [List.map_cons, List.nodup_cons] at hnd
    by_cases hp : p.1 = c
    · have hrany : r.any (fun p => p.1 == c) = false := by
        rw [Bool.eq_false_iff]
        intro hc
        exact hnd.1 (hp ▸ (any_key_iff r c).mp hc)
      rw [List.map_cons, map_update_id r c a hrany]
      simp only [if_pos hp, valsSum, List.map_cons, List.sum_cons]
      ring
    · have hrany : r.any (fun p => p.1 == c) = true := by
        simp only [List.any_cons, Bool.or_eq_true, beq_iff_eq] at hany
        rcases hany with h | h
        · exact absurd h hp
        · exact h
      have hih := ih hnd.2 hrany
      simp only [valsSum, List.map_cons, List.sum_cons, if_neg hp] at hih ⊢
      rw [hih]
      ring

theorem valsSum_addToTotals (ts : List (String × ℚ)) (c : String) (a : ℚ)
    (hnd : (ts.map Prod.fst).Nodup) :
    valsSum (addToTotals ts c a) = valsSum ts + a := by
  unfold addToTotals
  split
  · rename_i hany
    exact valsSum_map_update ts c a hnd hany
  · simp [valsSum]

theorem sumAmounts_cons (e : Expense) (l : List Expense) :
    sumAmounts (e :: l) = amountNum e + sumAmounts l := by
  simp [sumAmounts]

theorem valsSum_fold (l : List Expense) : ∀ ts : List (String × ℚ),
    (ts.map Prod.fst).Nodup →
    valsSum (l.foldl (fun ts e => addToTotals ts (catOf e) (amountNum e)) ts) =
      valsSum ts + sumAmounts l := by
  induction l with
  | nil => intro ts h; simp [sumAmounts]
  | cons e l ih =>
    intro ts h
    simp only [List.foldl_cons]
    rw [ih _ (keys_nodup_addToTotals _ _ _ h),
        valsSum_addToTotals _ _ _ h, sumAmounts_cons]
    ring

/-- C10: for every record set and filter selector, the overall total equals
the sum of the values of the category totals computed from the same filtered
set. -/
theorem totals_consistent (now : Int) (f : FilterSel) (l : List Expense) :
    overallTotal (filteredExpenses now f l) =
      valsSum (categoryTotals (filteredExpenses now f l)) := by
  rw [overallTotal_eq_sumAmounts, categoryTotals,
      valsSum_fold _ [] (by simp)]
  simp [valsSum]

def rowsPair : List Expense :=
  [⟨1, some 12, some "Food", some "lunch", some "1970-01-05"⟩,
   ⟨2, some 5, some "Food", none, some "1970-01-05"⟩]

/-- Witness for C5: the "Food" entry of the totals of two food rows carries
the summed amount 17 and stems from a row of the set. -/
theorem categoryTotals_correct_witness :
    (17 : ℚ) = sumForCat "Food" rowsPair ∧ ∃ e ∈ rowsPair, catOf e = "Food" :=
  (categoryTotals_correct rowsPair).2.2.2 ("Food", (17 : ℚ))
    (by
      norm_num [categoryTotals, addToTotals, catOf, amountNum, rowsPair]
      decide)

theorem expLeP_iff (a b : Expense) :
    expLeP a b ↔ dateLtB b.date a.date = true ∨ (b.date = a.date ∧ b.id ≤ a.id) := by
  simp [expLeP, expLeB, Bool.or_eq_true, Bool.and_eq_true]

theorem dateLtB_trans (x y z : Option String) (h1 : dateLtB x y = true)
    (h2 : dateLtB y z = true) : dateLtB x z = true := by
  cases x <;> cases y <;> cases z <;> simp [dateLtB] at *
  exact lt_trans h1 h2

theorem dateLtB_trichotomy (x y : Option String) :
    dateLtB x y = true ∨ x = y ∨ dateLtB y x = true := by
  cases x with
  | none => cases y with
    | none => exact Or.inr (Or.inl rfl)
    | some b => exact Or.inl (by simp [dateLtB])
  | some a => cases y with
    | none => exact Or.inr (Or.inr (by simp [dateLtB]))
    | some b =>
      rcases lt_trichotomy a b with h | h | h
      · exact Or.inl (by simp [dateLtB, h])
      · exact Or.inr (Or.inl (by rw [h]))
      · exact Or.inr (Or.inr (by simp [dateLtB, h]))

instance : IsTrans Expense expLeP := by
  constructor
  intro a b c hab hbc
  rw [expLeP_iff] at *
  rcases hab with h1 | ⟨h1, hi1⟩ <;> rcases hbc with h2 | ⟨h2, hi2⟩
  · exact Or.inl (dateLtB_trans _ _ _ h2 h1)
  · exact Or.inl (h2 ▸ h1)
  · exact Or.inl (h1 ▸ h2)
  · exact Or.inr ⟨h2.trans h1, le_trans hi2 hi1⟩

instance : IsTotal Expense expLeP := by
  constructor
  intro a b
  rw [expLeP_iff, expLeP_iff]
  rcases dateLtB_trichotomy b.date a.date with h | h | h
  · exact Or.inl (Or.inl h)
  · rcases Nat.le_total b.id a.id with hi | hi
    · exact Or.inl (Or.inr ⟨h, hi⟩)
    · exact Or.inr (Or.inr ⟨h.symm, hi⟩)
  · exact Or.inr (Or.inl h)

theorem runCmd_cache (env : Env) (st : AppState) (c : Cmd)
    (h : st.expenses = loadExpenses st.db) :
    (runCmd env st c).expenses = loadExpenses (runCmd env st c).db := by
  cases c with
  | add =>
    show (addExpense env st).expenses = loadExpenses (addExpense env st).db
    unfold addExpense
    cases env.parseFloat st.amount with
    | none => exact h
    | some q =>
      by_cases h1 : q ≤ 0
      · simp only [if_pos h1]; exact h
      · by_cases h2 : trimJS st.category = ""
        · simp only [if_neg h1, if_pos h2]; exact h
        · simp only [if_neg h1, if_neg h2]
  | save =>
    show (saveEdit env st).expenses = loadExpenses (saveEdit env st).db
    unfold saveEdit
    cases env.parseFloat st.amount with
    | none => exact h
    | some q =>
      by_cases h1 : q ≤ 0
      · simp only [if_pos h1]; exact h
      · by_cases h2 : trimJS st.category = ""
        · simp only [if_neg h1, if_pos h2]; exact h
        · simp only [if_neg h1, if_neg h2]
          cases st.editingId with
          | none => exact h
          | some eid =>
            by_cases h3 : eid = 0
            · simp only [if_pos h3]; exact h
            · simp only [if_neg h3]
  | cancel => exact h
  | del i => rfl
  | edit item => exact h
  | setF f => exact h
  | setAmount s => exact h
  | setCategory s => exact h
  | setNote s => exact h

theorem run_cache (ecs : List (Env × Cmd)) : ∀ st : AppState,
    st.expenses = loadExpenses st.db →
    (run ecs st).expenses = loadExpenses (run ecs st).db := by
  induction ecs with
  | nil => exact fun st h => h
  | cons ec ecs ih => exact fun st h => ih _ (runCmd_cache ec.1 st ec.2 h)

/-- C9: after any sequence of commands the in-memory list is the reload of
the store, it contains every persisted record (a permutation of the store),
and it is ordered by date descending with ties broken by id descending. -/
theorem run_load_sorted (ecs : List (Env × Cmd)) (st0 : AppState)
    (h0 : st0.expenses = loadExpenses st0.db) :
    (run ecs st0).expenses = loadExpenses (run ecs st0).db ∧
    ((run ecs st0).expenses).Perm ((run ecs st0).db) ∧
    ((run ecs st0).expenses).Pairwise (fun a b =>
      dateLtB b.date a.date = true ∨ (b.date = a.date ∧ b.id ≤ a.id)) := by
  have hc := run_cache ecs st0 h0
  refine ⟨hc, ?_, ?_⟩
  · rw [hc]
    exact List.perm_insertionSort expLeP _
  · rw [hc]
    exact (List.sorted_insertionSort expLeP ((run ecs st0).db)).imp
      (fun h => (expLeP_iff _ _).mp h)

theorem updRow_id (q : ℚ) (cat note : String) (eid : Nat) (e : Expense) :
    (updRow q cat note eid e).id = e.id := by
  unfold updRow
  split <;> rfl

theorem updRow_date (q : ℚ) (cat note : String) (eid : Nat) (e : Expense) :
    (updRow q cat note eid e).date = e.date := by
  unfold updRow
  split <;> rfl

/-- C8: a successful `saveEdit` rewrites the store by a per-row update that
preserves every id and date, leaves every row whose id differs from the
remembered id unchanged, sets exactly the amount, category and note of the
matching row, and afterwards the reloaded list has exactly one row with that
id. -/
theorem saveEdit_frame (env : Env) (st : AppState) (q : ℚ) (eid : Nat)
    (hp : env.parseFloat st.amount = some q) (hq : 0 < q)
    (hc : trimJS st.category ≠ "") (he : st.editingId = some eid) (h0 : eid ≠ 0)
    (hnd : (st.db.map Expense.id).Nodup) (hm : eid ∈ st.db.map Expense.id) :
    (saveEdit env st).db =
      st.db.map (updRow q (trimJS st.category) (trimJS st.note) eid) ∧
    (∀ e, (updRow q (trimJS st.category) (trimJS st.note) eid e).id = e.id ∧
      (updRow q (trimJS st.category) (trimJS st.note) eid e).date = e.date) ∧
    (∀ e, e.id ≠ eid → updRow q (trimJS st.category) (trimJS st.note) eid e = e) ∧
    (∀ e, e.id = eid → updRow q (trimJS st.category) (trimJS st.note) eid e =
      { e with amount := some q, category := some (trimJS st.category),
               note := if trimJS st.note = "" then none
                       else some (trimJS st.note) }) ∧
    (saveEdit env st).expenses.countP (fun e => e.id == eid) = 1 := by
  have hstep : (saveEdit env st).db =
      st.db.map (updRow q (trimJS st.category) (trimJS st.note) eid) ∧
      (saveEdit env st).expenses =
        loadExpenses (st.db.map (updRow q (trimJS st.category) (trimJS st.note) eid)) := by
    unfold saveEdit
    rw [hp, he]
    simp only [not_le.mpr hq, if_false, if_neg hc, if_neg h0]
    constructor <;> trivial
  refine ⟨hstep.1, fun e => ⟨updRow_id q _ _ eid e, updRow_date q _ _ eid e⟩,
    fun e hne => by unfold updRow; rw [if_neg hne],
    fun e heq => by unfold updRow; rw [if_pos heq], ?_⟩
  rw [hstep.2]
  have hperm : (loadExpenses (st.db.map (updRow q (trimJS st.category)
      (trimJS st.note) eid))).Perm
      (st.db.map (updRow q (trimJS st.category) (trimJS st.note) eid)) :=
    List.perm_insertionSort expLeP _
  rw [List.Perm.countP_eq _ hperm, List.countP_map]
  have hcongr : List.countP ((fun e => e.id == eid) ∘
      updRow q (trimJS st.category) (trimJS st.note) eid) st.db =
      List.countP (fun e => e.id == eid) st.db := by
    refine List.countP_congr fun e _ => ?_
    simp [Function.comp, updRow_id]
  rw [hcongr]
  have hcount := List.count_eq_one_of_mem hnd hm
  rw [List.count_eq_countP, List.countP_map] at hcount
  exact hcount

def envEdit : Env :=
  { parseFloat := fun _ => some 25, numToString := fun _ => "", now := 4 }

def rowTen : Expense := ⟨1, some 10, some "Food", none, some "1970-01-02"⟩

def stEdit : AppState :=
  { db := [rowTen], nextId := 2, expenses := loadExpenses [rowTen],
    amount := "25", category := "Food", note := "", editingId := some 1,
    filter := .All }

/-- Witness for C8: editing the single stored row leaves exactly one row
with its id in the reloaded list. -/
theorem saveEdit_frame_witness :
    (saveEdit envEdit stEdit).expenses.countP (fun e => e.id == 1) = 1 :=
  (saveEdit_frame envEdit stEdit 25 1 rfl (by norm_num) (by decide) rfl
    (by decide) (by decide) (by decide)).2.2.2.2

/-- Witness for C9: after one add command from an empty store the cache is
the sorted reload of the store. -/
theorem run_load_sorted_witness :
    (run [(envPos, Cmd.add)] stStart).expenses =
      loadExpenses (run [(envPos, Cmd.add)] stStart).db ∧
    ((run [(envPos, Cmd.add)] stStart).expenses).Perm
      ((run [(envPos, Cmd.add)] stStart).db) ∧
    ((run [(envPos, Cmd.add)] stStart).expenses).Pairwise (fun a b =>
      dateLtB b.date a.date = true ∨ (b.date = a.date ∧ b.id ≤ a.id)) :=
  run_load_sorted [(envPos, Cmd.add)] stStart rfl
